import Mathlib

/-!
Jogo da Velha: state classification and prediction scoring.

A shallow embedding of `jogo-da-velha.go`.  Every method with receiver `*Game`
becomes a function on the record `Game`; a method that assigns to a field
returns the new record.  The outcome of the external Python process and of
`json.Unmarshal` is supplied through the record `Env`.  Text written with
`fmt.Print*` is not modelled.
-/

namespace JogoDaVelha

set_option maxRecDepth 20000

/-! ## Data model -/

/-- The Go enumeration `GameState` (`TemJogo = 0`, `PossivelFimDeJogo = 1`, `FimDeJogo = 2`). -/
inductive GameState where
  | TemJogo
  | PossivelFimDeJogo
  | FimDeJogo
  deriving DecidableEq, Repr

/-- The Go type `Board = [9]string`: nine cells, indexed `0..8`. -/
abbrev Board := Fin 9 → String

/-- The Go struct `AIModel`. -/
structure AIModel where
  Name : String
  DisplayName : String
  Accuracy : Float
  Available : Bool

/-- The Go struct `PredictionResult`. -/
structure PredictionResult where
  Model : String
  PredictionInt : Int
  PredictionLabel : String
  Confidence : Option Float
  Error : String

/-- The Go struct `Game`. -/
structure Game where
  board : Board
  currentPlayer : String
  gameOver : Bool
  winner : String
  aiCorrect : Int
  aiIncorrect : Int
  totalPredictions : Int
  selectedModel : String
  availableModels : List AIModel

/-- What the program observes of the world outside: whether `os.Stat(".venv/bin/python")`
succeeds, the result of `exec.Command(cmd, args...).Output()` (`none` when it returns an
error, which includes a non-zero exit), the result of `json.Unmarshal` into a
`PredictionResult` (`none` when it returns an error), and the result of unmarshalling
the `info` answer into its list of model names. -/
structure Env where
  venvPython : Bool
  output : String → List String → Option String
  unmarshalPrediction : String → Option PredictionResult
  unmarshalInfo : String → Option (List String)

/-- The Go type `int` on a 64-bit target: the value to which a
mathematical integer wraps around. -/
def wrapInt (z : Int) : Int := (z + 2 ^ 63) % 2 ^ 64 - 2 ^ 63

/-- Reading `board[i]` for a Go `int` index; `none` stands for the run-time panic on an
index outside `0..8`. -/
def Board.index (b : Board) (i : Int) : Option String :=
  if h : 0 ≤ i ∧ i < 9 then some (b ⟨i.toNat, by omega⟩) else none

/-- The assignment `board[i] = v` for a Go `int` index; `none` stands for the run-time
panic on an index outside `0..8`. -/
def Board.assign (b : Board) (i : Int) (v : String) : Option Board :=
  if h : 0 ≤ i ∧ i < 9 then some (Function.update b ⟨i.toNat, by omega⟩ v) else none

/-- The cells of the board in index order, as `range g.board` visits them. -/
def Board.cells (b : Board) : List String := List.ofFn b

/-! ## Construction -/

/-- The literal assigned to `g.availableModels` in `initializeModels`. -/
def initialModels : List AIModel :=
  [ { Name := "rule_based", DisplayName := "Classificador Baseado em Regras",
      Accuracy := 0.0, Available := true },
    { Name := "mlp", DisplayName := "MLP Neural Network", Accuracy := 82.53, Available := false },
    { Name := "random_forest", DisplayName := "Random Forest",
      Accuracy := 75.96, Available := false },
    { Name := "knn", DisplayName := "k-Nearest Neighbors (k=7)",
      Accuracy := 72.22, Available := false },
    { Name := "decision_tree", DisplayName := "Decision Tree",
      Accuracy := 66.68, Available := false } ]

/-- The interpreter chosen by `checkModelAvailability` and `predictWithTrainedModel`. -/
def pythonCmd (env : Env) : String :=
  if env.venvPython then ".venv/bin/python" else "python3"

/-- `checkModelAvailability`: marks as available every model whose name the `info` answer
lists; returns early, changing nothing, when the process or the parse fails. -/
def checkModelAvailability (env : Env) (g : Game) : Game :=
  match env.output (pythonCmd env) ["model_predictor.py", "info"] with
  | none => g
  | some out =>
    match env.unmarshalInfo out with
    | none => g
    | some names =>
      { g with availableModels :=
          g.availableModels.map (fun m =>
            if names.any (fun available => m.Name == available)
            then { m with Available := true } else m) }

/-- `initializeModels`. -/
def initializeModels (env : Env) (g : Game) : Game :=
  checkModelAvailability env { g with availableModels := initialModels }

/-- `NewGame`: fields absent from the composite literal take the zero value of their type. -/
def NewGame (env : Env) : Game :=
  initializeModels env
    { board := fun _ => "b"
      currentPlayer := "x"
      gameOver := false
      winner := ""
      aiCorrect := 0
      aiIncorrect := 0
      totalPredictions := 0
      selectedModel := "rule_based"
      availableModels := [] }

/-! ## The real state -/

/-- The table `winPatterns` of `GetRealGameState` and `canWinInOneMove`: eight slices of
three indices each, all within `0..8`. -/
def winPatterns : List (Fin 9 × Fin 9 × Fin 9) :=
  [ (0, 1, 2), (3, 4, 5), (6, 7, 8),
    (0, 3, 6), (1, 4, 7), (2, 5, 8),
    (0, 4, 8), (2, 4, 6) ]

/-- The first loop of `GetRealGameState` over the given patterns: the value assigned to
`g.winner` at the first pattern whose test succeeds, `none` when the loop runs to its end. -/
def findWinner (b : Board) : List (Fin 9 × Fin 9 × Fin 9) → Option String
  | [] => none
  | pattern :: rest =>
    if b pattern.1 ≠ "b" ∧ b pattern.1 = b pattern.2.1 ∧ b pattern.2.1 = b pattern.2.2
    then some (b pattern.1)
    else findWinner b rest

/-- The counting loop of `GetRealGameState`: the final value of `emptySpaces`. -/
def emptySpaces (b : Board) : Nat :=
  b.cells.foldl (fun n cell => if cell = "b" then n + 1 else n) 0

/-- The inner loop of `canWinInOneMove` over one pattern: the final `(count, emptyPos)`. -/
def scanPattern (b : Board) (player : String) (pattern : Fin 9 × Fin 9 × Fin 9) : Nat × Int :=
  [pattern.1, pattern.2.1, pattern.2.2].foldl
    (fun (acc : Nat × Int) pos =>
      if b pos = player then (acc.1 + 1, acc.2)
      else if b pos = "b" then (acc.1, ((pos : Nat) : Int))
      else acc)
    (0, -1)

/-- The outer loop of `canWinInOneMove` over the given patterns. -/
def canWinLoop (b : Board) (player : String) : List (Fin 9 × Fin 9 × Fin 9) → Bool
  | [] => false
  | pattern :: rest =>
    if (scanPattern b player pattern).1 = 2 ∧ (scanPattern b player pattern).2 ≠ -1
    then true
    else canWinLoop b player rest

/-- `canWinInOneMove`. -/
def canWinInOneMove (g : Game) (player : String) : Bool :=
  canWinLoop g.board player winPatterns

/-- `GetRealGameState`: the returned state and the game after the call. -/
def GetRealGameState (g : Game) : GameState × Game :=
  match findWinner g.board winPatterns with
  | some w => (GameState.FimDeJogo, { g with winner := w, gameOver := true })
  | none =>
    if emptySpaces g.board = 0 then
      (GameState.FimDeJogo, { g with gameOver := true, winner := "empate" })
    else if canWinInOneMove g "x" || canWinInOneMove g "o" then
      (GameState.PossivelFimDeJogo, g)
    else
      (GameState.TemJogo, g)

/-! ## Prediction -/

/-- The counting loop of `predictWithRules`: the final `(xCount, oCount, emptyCount)`. -/
def countMarks (b : Board) : Nat × Nat × Nat :=
  b.cells.foldl
    (fun (acc : Nat × Nat × Nat) cell =>
      if cell = "x" then (acc.1 + 1, acc.2.1, acc.2.2)
      else if cell = "o" then (acc.1, acc.2.1 + 1, acc.2.2)
      else if cell = "b" then (acc.1, acc.2.1, acc.2.2 + 1)
      else acc)
    (0, 0, 0)

/-- `predictWithRules`: the returned state and the game after the call. -/
def predictWithRules (g : Game) : GameState × Game :=
  let xCount := (countMarks g.board).1
  let oCount := (countMarks g.board).2.1
  let emptyCount := (countMarks g.board).2.2
  if emptyCount ≤ 2 then (GameState.FimDeJogo, g)
  else if emptyCount ≤ 4 ∧ (xCount ≥ 2 ∨ oCount ≥ 2) then (GameState.PossivelFimDeJogo, g)
  else (GameState.TemJogo, g)

/-- The argument `strings.Join(g.board[:], ",")`. -/
def boardString (b : Board) : String := String.intercalate "," b.cells

/-- The final `switch result.PredictionInt` of `predictWithTrainedModel`. -/
def stateOfInt (n : Int) : GameState :=
  if n = 0 then GameState.TemJogo
  else if n = 1 then GameState.PossivelFimDeJogo
  else if n = 2 then GameState.FimDeJogo
  else GameState.TemJogo

/-- `predictWithTrainedModel`: the returned state and the game after the call. -/
def predictWithTrainedModel (env : Env) (g : Game) : GameState × Game :=
  match env.output (pythonCmd env)
      ["model_predictor.py", "predict", g.selectedModel, boardString g.board] with
  | none => predictWithRules g
  | some out =>
    match env.unmarshalPrediction out with
    | none => predictWithRules g
    | some result =>
      if result.Error ≠ "" then predictWithRules g
      else (stateOfInt result.PredictionInt, g)

/-- `PredictGameStateWithAI`. -/
def PredictGameStateWithAI (env : Env) (g : Game) : GameState × Game :=
  if g.selectedModel = "rule_based" then predictWithRules g
  else predictWithTrainedModel env g

/-! ## Moves -/

/-- `IsValidMove`; `&&` evaluates its right operand only when the left one is true.
`none` stands for a run-time panic. -/
def IsValidMove (g : Game) (position : Int) : Option Bool :=
  if position ≥ 0 then
    if position ≤ 8 then
      (g.board.index position).map (fun cell => decide (cell = "b"))
    else some false
  else some false

/-- `MakeMove`: the returned flag and the game after the call; `none` stands for a
run-time panic. -/
def MakeMove (g : Game) (position : Int) : Option (Bool × Game) :=
  match IsValidMove g position with
  | none => none
  | some false => some (false, g)
  | some true =>
    (g.board.assign position g.currentPlayer).map (fun b => (true, { g with board := b }))

/-- `GetComputerMove`, with `intn` standing for `rand.Intn`; `none` stands for the
run-time panic on an index outside `validMoves`, which `rand.Intn` excludes. -/
def GetComputerMove (g : Game) (intn : Nat → Nat) : Option Int :=
  let validMoves : List Int :=
    (List.finRange 9).foldl
      (fun acc i => if g.board i = "b" then acc ++ [((i : Nat) : Int)] else acc) []
  if validMoves.length = 0 then some (-1)
  else validMoves[intn validMoves.length]?

/-- `SwitchPlayer`. -/
def SwitchPlayer (g : Game) : Game :=
  if g.currentPlayer = "x" then { g with currentPlayer := "o" }
  else { g with currentPlayer := "x" }

/-! ## Scoring -/

/-- `CompareStates`; each `++` is an addition on the Go type `int`. -/
def CompareStates (g : Game) (predicted real : GameState) : Game :=
  let g1 := { g with totalPredictions := wrapInt (g.totalPredictions + 1) }
  if predicted = real then { g1 with aiCorrect := wrapInt (g1.aiCorrect + 1) }
  else { g1 with aiIncorrect := wrapInt (g1.aiIncorrect + 1) }

/-- A sequence of `CompareStates(predicted, real)` calls, applied in order. -/
def compareAll (g : Game) (calls : List (GameState × GameState)) : Game :=
  calls.foldl (fun acc c => CompareStates acc c.1 c.2) g

/-! ## The game loop -/

/-- The part of one iteration of the `for !g.gameOver` loop of `PlayGame` up to the move:
`position` is the number typed by the player, `intn` stands for `rand.Intn`.  The result
is `none` when the loop is not entered, when the iteration ends in `continue` or `break`
(the game is then as it was), or on a run-time panic.  On the turn of the computer the
flag returned by `MakeMove` is ignored, as in the source. -/
def playMove (intn : Nat → Nat) (g : Game) (position : Int) : Option Game :=
  if g.gameOver then none
  else if g.currentPlayer = "x" then
    match MakeMove g position with
    | some (true, g1) => some g1
    | _ => none
  else
    match GetComputerMove g intn with
    | none => none
    | some computerMove =>
      if computerMove = -1 then none
      else (MakeMove g computerMove).map Prod.snd

/-- The rest of the iteration, after the move: the real state, the prediction, the
comparison, and the change of player unless the game is over. -/
def analyseMove (env : Env) (g1 : Game) : Game :=
  let real := GetRealGameState g1
  let predicted := PredictGameStateWithAI env real.2
  let g4 := CompareStates predicted.2 predicted.1 real.1
  if g4.gameOver then g4 else SwitchPlayer g4

/-- One iteration of the loop of `PlayGame` that reaches the analysis of the move. -/
def playIteration (env : Env) (intn : Nat → Nat) (g : Game) (position : Int) : Option Game :=
  (playMove intn g position).map (analyseMove env)

/-- The games that `PlayGame` can hold at the head of its loop or at its exit, from a
game built by `NewGame`.  The constructor `select` covers `selectModel`, which `PlayGame`
calls before the loop and which assigns at most the field `selectedModel`. -/
inductive Reachable : Game → Prop where
  | start (env : Env) : Reachable (NewGame env)
  | select (g : Game) (model : String) :
      Reachable g → Reachable { g with selectedModel := model }
  | step (env : Env) (intn : Nat → Nat) (g g2 : Game) (position : Int) :
      Reachable g → playIteration env intn g position = some g2 → Reachable g2

/-! ## Vocabulary of the statements -/

/-- Every cell holds one of the three tokens `"x"`, `"o"`, `"b"`. -/
abbrev WellFormed (b : Board) : Prop := ∀ i : Fin 9, b i = "x" ∨ b i = "o" ∨ b i = "b"

/-- All three cells of the triple hold `m`. -/
abbrev FilledBy (b : Board) (m : String) (p : Fin 9 × Fin 9 × Fin 9) : Prop :=
  b p.1 = m ∧ b p.2.1 = m ∧ b p.2.2 = m

/-- The triple is complete: its three cells are equal and not empty. -/
abbrev Completed (b : Board) (p : Fin 9 × Fin 9 × Fin 9) : Prop :=
  b p.1 ≠ "b" ∧ b p.1 = b p.2.1 ∧ b p.2.1 = b p.2.2

/-- Two cells of the triple hold `m` and the remaining one is empty. -/
abbrev TwoAndEmpty (b : Board) (m : String) (p : Fin 9 × Fin 9 × Fin 9) : Prop :=
  (b p.1 = m ∧ b p.2.1 = m ∧ b p.2.2 = "b") ∨
  (b p.1 = m ∧ b p.2.1 = "b" ∧ b p.2.2 = m) ∨
  (b p.1 = "b" ∧ b p.2.1 = m ∧ b p.2.2 = m)

/-- The number of cells of the board that hold `v`. -/
def cellCount (b : Board) (v : String) : Nat := b.cells.count v

/-- The number of cells of the board that are not empty. -/
def filledCells (b : Board) : Nat :=
  (Finset.univ.filter (fun j : Fin 9 => b j ≠ "b")).card

/-! ## Concrete games -/

/-- An environment in which no Python process can be run. -/
def noPython : Env :=
  { venvPython := false
    output := fun _ _ => none
    unmarshalPrediction := fun _ => none
    unmarshalInfo := fun _ => none }

/-- A fresh game whose board is replaced by `b`. -/
def gameOn (b : Board) : Game := { NewGame noPython with board := b }

/-- A full board on which `"x"` holds the top row. -/
def fullWinBoard : Board := !["x", "x", "x", "o", "o", "x", "x", "o", "o"]

/-- A full board on which no winning triple holds three equal cells. -/
def drawBoard : Board := !["x", "o", "x", "x", "o", "o", "o", "x", "x"]

/-- A board on which `"x"` holds cells 0 and 1 of the top row and cell 2 is empty. -/
def pairBoard : Board := !["x", "x", "b", "b", "o", "b", "b", "b", "b"]

/-- A board with four empty cells. -/
def fourEmptyBoard : Board := !["x", "o", "x", "o", "x", "b", "b", "b", "b"]

/-- An environment in which the Python process answers with an error field. -/
def failingModel : Env :=
  { venvPython := true
    output := fun _ _ => some "\x7b\"error\": \"Model mlp not available\"\x7d"
    unmarshalPrediction := fun _ =>
      some { Model := "", PredictionInt := 0, PredictionLabel := "", Confidence := none,
             Error := "Model mlp not available" }
    unmarshalInfo := fun _ => none }

/-- A game on `pairBoard` for which the model `"mlp"` has been selected. -/
def mlpGame : Game := { gameOn pairBoard with selectedModel := "mlp" }

/-- The game after `"x"` has opened in the centre, if that iteration yields a game. -/
def afterCentre : Game :=
  (playIteration noPython (fun _ => 0) (NewGame noPython) 4).getD (NewGame noPython)

/-- The game after the computer has answered the opening in the centre. -/
def afterReply : Game :=
  (playIteration noPython (fun _ => 0) afterCentre 0).getD (NewGame noPython)

/-! ## Lemmas on the loops -/

lemma findWinner_some {b : Board} {w : String} :
    ∀ {ps : List (Fin 9 × Fin 9 × Fin 9)}, findWinner b ps = some w →
      ∃ q ∈ ps, Completed b q ∧ w = b q.1
  | [], h => by simp [findWinner] at h
  | p :: ps, h => by
    unfold findWinner at h
    split_ifs at h with hc
    · exact ⟨p, List.mem_cons_self _ _, hc, by simpa using h.symm⟩
    · obtain ⟨q, hq, hqc⟩ := findWinner_some h
      exact ⟨q, List.mem_cons_of_mem _ hq, hqc⟩

lemma findWinner_none {b : Board} :
    ∀ {ps : List (Fin 9 × Fin 9 × Fin 9)},
      findWinner b ps = none ↔ ∀ q ∈ ps, ¬ Completed b q
  | [] => by simp [findWinner]
  | p :: ps => by
    unfold findWinner
    split_ifs with hc
    · constructor
      · intro h
        cases h
      · intro h
        exact absurd hc (h p (List.mem_cons_self _ _))
    · rw [findWinner_none]
      simp only [List.mem_cons, forall_eq_or_imp]
      exact ⟨fun h => ⟨hc, h⟩, fun h => h.2⟩

lemma foldl_count_empty (l : List String) (n : Nat) :
    l.foldl (fun n cell => if cell = "b" then n + 1 else n) n = n + l.count "b" := by
  induction l generalizing n with
  | nil => simp
  | cons c l ih =>
    simp only [List.foldl_cons, ih, List.count_cons]
    by_cases h : c = "b"
    · simp [h]; omega
    · simp [h]

lemma emptySpaces_eq_count (b : Board) : emptySpaces b = b.cells.count "b" := by
  simp [emptySpaces, foldl_count_empty]

lemma emptySpaces_eq_zero {b : Board} : emptySpaces b = 0 ↔ ∀ i, b i ≠ "b" := by
  rw [emptySpaces_eq_count, List.count_eq_zero, Board.cells, List.mem_ofFn]
  simp

/-! ## Theorems -/

/-- C1: a board over the three tokens on which some winning triple is filled by the mark
`m` and no winning triple is filled by the other mark is classified `FimDeJogo`, with
`winner = m` and `gameOver = true`, whatever the other six cells hold and whether or not
an empty cell is left. -/
theorem win_detection (g : Game) (p : Fin 9 × Fin 9 × Fin 9) (hp : p ∈ winPatterns)
    (m : String) (hm : m = "x" ∨ m = "o") (hwf : WellFormed g.board)
    (hfill : FilledBy g.board m p)
    (hother : ∀ m2 : String, (m2 = "x" ∨ m2 = "o") → m2 ≠ m →
      ∀ q ∈ winPatterns, ¬ FilledBy g.board m2 q) :
    GetRealGameState g = (GameState.FimDeJogo, { g with winner := m, gameOver := true }) := by
  have hmb : m ≠ "b" := by rcases hm with h | h <;> simp [h]
  have hcomp : Completed g.board p :=
    ⟨by rw [hfill.1]; exact hmb, by rw [hfill.1, hfill.2.1], by rw [hfill.2.1, hfill.2.2]⟩
  cases hw : findWinner g.board winPatterns with
  | none => exact absurd hcomp (findWinner_none.mp hw p hp)
  | some w =>
    obtain ⟨q, hq, hqc, hwq⟩ := findWinner_some hw
    have hwm : w = m := by
      by_contra hne
      have hw2 : w = "x" ∨ w = "o" := by
        rcases hwf q.1 with h | h | h
        · exact Or.inl (hwq.trans h)
        · exact Or.inr (hwq.trans h)
        · exact absurd h hqc.1
      exact hother w hw2 hne q hq ⟨hwq.symm, by rw [← hqc.2.1, hwq], by rw [← hqc.2.2, ← hqc.2.1, hwq]⟩
    simp [GetRealGameState, hw, hwm]

/-- C1 at a full board: the top row is `"x"`, no cell is empty, and the classification is
a win for `"x"`, not a draw. -/
theorem win_detection_witness :
    (∀ i, (gameOn fullWinBoard).board i ≠ "b") ∧
    GetRealGameState (gameOn fullWinBoard) =
      (GameState.FimDeJogo, { gameOn fullWinBoard with winner := "x", gameOver := true }) :=
  ⟨by decide,
    win_detection (gameOn fullWinBoard) (0, 1, 2) (by decide) "x" (Or.inl rfl) (by decide)
      (by decide)
      (by
        intro m2 hm2 hne
        rcases hm2 with h | h
        · exact absurd h hne
        · subst h; decide)⟩

/-- C2: a board without an empty cell on which no winning triple holds three equal cells
is classified `FimDeJogo`, with `winner = "empate"` and `gameOver = true`. -/
theorem draw_detection (g : Game) (hfull : ∀ i, g.board i ≠ "b")
    (hno : ∀ q ∈ winPatterns,
      ¬ (g.board q.1 = g.board q.2.1 ∧ g.board q.2.1 = g.board q.2.2)) :
    GetRealGameState g =
      (GameState.FimDeJogo, { g with gameOver := true, winner := "empate" }) := by
  have hw : findWinner g.board winPatterns = none :=
    findWinner_none.mpr (fun q hq hc => hno q hq hc.2)
  have he : emptySpaces g.board = 0 := emptySpaces_eq_zero.mpr hfull
  simp [GetRealGameState, hw, he]

/-- C2 at the full board `x o x / x o o / o x x`. -/
theorem draw_detection_witness :
    (∀ i, (gameOn drawBoard).board i ≠ "b") ∧
    (∀ q ∈ winPatterns, ¬ ((gameOn drawBoard).board q.1 = (gameOn drawBoard).board q.2.1 ∧
      (gameOn drawBoard).board q.2.1 = (gameOn drawBoard).board q.2.2)) ∧
    GetRealGameState (gameOn drawBoard) =
      (GameState.FimDeJogo, { gameOn drawBoard with gameOver := true, winner := "empate" }) :=
  ⟨by decide, by decide, draw_detection (gameOn drawBoard) (by decide) (by decide)⟩

lemma natCast_ne_neg_one (n : Nat) : (n : Int) ≠ -1 := by omega

lemma scanPattern_iff (b : Board) (m : String) (hm : m ≠ "b") (p : Fin 9 × Fin 9 × Fin 9) :
    ((scanPattern b m p).1 = 2 ∧ (scanPattern b m p).2 ≠ -1) ↔ TwoAndEmpty b m p := by
  have hm2 : ¬ "b" = m := fun h => hm h.symm
  simp only [scanPattern, List.foldl_cons, List.foldl_nil, TwoAndEmpty]
  by_cases h1 : b p.1 = m <;> by_cases h2 : b p.2.1 = m <;> by_cases h3 : b p.2.2 = m <;>
    by_cases e1 : b p.1 = "b" <;> by_cases e2 : b p.2.1 = "b" <;>
    by_cases e3 : b p.2.2 = "b" <;>
    simp_all [natCast_ne_neg_one]

lemma canWinLoop_iff (b : Board) (m : String) (hm : m ≠ "b") :
    ∀ ps : List (Fin 9 × Fin 9 × Fin 9),
      canWinLoop b m ps = true ↔ ∃ p ∈ ps, TwoAndEmpty b m p
  | [] => by simp [canWinLoop]
  | p :: ps => by
    unfold canWinLoop
    split_ifs with hc
    · simp only [true_iff]
      exact ⟨p, List.mem_cons_self _ _, (scanPattern_iff b m hm p).mp hc⟩
    · rw [canWinLoop_iff b m hm ps]
      have hnot : ¬ TwoAndEmpty b m p := fun h => hc ((scanPattern_iff b m hm p).mpr h)
      constructor
      · rintro ⟨q, hq, hqt⟩
        exact ⟨q, List.mem_cons_of_mem _ hq, hqt⟩
      · rintro ⟨q, hq, hqt⟩
        rcases List.mem_cons.mp hq with rfl | hq2
        · exact absurd hqt hnot
        · exact ⟨q, hq2, hqt⟩

/-- The value returned by `GetRealGameState` once its two terminal tests have failed. -/
lemma GetRealGameState_open (g : Game) (hno : ∀ q ∈ winPatterns, ¬ Completed g.board q)
    (hempty : ∃ i, g.board i = "b") :
    GetRealGameState g =
      (if canWinInOneMove g "x" || canWinInOneMove g "o"
        then GameState.PossivelFimDeJogo else GameState.TemJogo, g) := by
  have hw : findWinner g.board winPatterns = none := findWinner_none.mpr hno
  have he : emptySpaces g.board ≠ 0 := by
    rw [Ne, emptySpaces_eq_zero]
    obtain ⟨i, hi⟩ := hempty
    exact fun h => h i hi
  simp only [GetRealGameState, hw, he, if_false]
  split_ifs <;> rfl

/-- C3: on a board with no completed winning triple and at least one empty cell,
`GetRealGameState` returns `PossivelFimDeJogo` exactly when, for one of the two marks,
some winning triple has two cells holding that mark and its third cell empty; otherwise
it returns `TemJogo`; in both cases the game is left as it was. -/
theorem near_terminal_iff (g : Game) (hno : ∀ q ∈ winPatterns, ¬ Completed g.board q)
    (hempty : ∃ i, g.board i = "b") :
    ((GetRealGameState g).1 = GameState.PossivelFimDeJogo ↔
      ∃ m : String, (m = "x" ∨ m = "o") ∧ ∃ p ∈ winPatterns, TwoAndEmpty g.board m p) ∧
    ((¬ ∃ m : String, (m = "x" ∨ m = "o") ∧ ∃ p ∈ winPatterns, TwoAndEmpty g.board m p) →
      (GetRealGameState g).1 = GameState.TemJogo) ∧
    (GetRealGameState g).2 = g := by
  have hx := canWinLoop_iff g.board "x" (by decide) winPatterns
  have ho := canWinLoop_iff g.board "o" (by decide) winPatterns
  have hiff : (canWinInOneMove g "x" || canWinInOneMove g "o") = true ↔
      ∃ m : String, (m = "x" ∨ m = "o") ∧ ∃ p ∈ winPatterns, TwoAndEmpty g.board m p := by
    rw [Bool.or_eq_true, canWinInOneMove, canWinInOneMove, hx, ho]
    constructor
    · rintro (h | h)
      · exact ⟨"x", Or.inl rfl, h⟩
      · exact ⟨"o", Or.inr rfl, h⟩
    · rintro ⟨m, rfl | rfl, h⟩
      · exact Or.inl h
      · exact Or.inr h
  rw [GetRealGameState_open g hno hempty]
  refine ⟨?_, ?_, rfl⟩
  · rw [← hiff]
    by_cases hc : (canWinInOneMove g "x" || canWinInOneMove g "o") = true <;> simp [hc]
  · intro hn
    rw [← hiff] at hn
    simp [hn]

/-- C3 at the board `x x _ / _ o _ / _ _ _`: the pair is held by `"x"` in the top row. -/
theorem near_terminal_iff_witness :
    (∀ q ∈ winPatterns, ¬ Completed (gameOn pairBoard).board q) ∧
    (∃ i, (gameOn pairBoard).board i = "b") ∧
    (GetRealGameState (gameOn pairBoard)).1 = GameState.PossivelFimDeJogo ∧
    (GetRealGameState (gameOn pairBoard)).2 = gameOn pairBoard :=
  ⟨by decide, by decide,
    (near_terminal_iff (gameOn pairBoard) (by decide) (by decide)).1.mpr
      ⟨"x", Or.inl rfl, (0, 1, 2), by decide, by decide⟩,
    (near_terminal_iff (gameOn pairBoard) (by decide) (by decide)).2.2⟩

/-- C8: `GetRealGameState` leaves the board as it was, and a second call on the game it
leaves returns the same state and the same game. -/
theorem classification_idempotent (g : Game) :
    (GetRealGameState g).2.board = g.board ∧
    GetRealGameState (GetRealGameState g).2 = GetRealGameState g := by
  unfold GetRealGameState
  cases hw : findWinner g.board winPatterns with
  | some w => simp [hw]
  | none =>
    by_cases he : emptySpaces g.board = 0
    · simp [hw, he]
    · by_cases hc : (canWinInOneMove g "x" || canWinInOneMove g "o") = true
      · simp only [he, hc, if_true, if_false, hw, and_self]
      · have hc2 : (canWinInOneMove g "x" || canWinInOneMove g "o") = false :=
          Bool.eq_false_iff.mpr hc
        simp only [he, hc2, hw, if_false, Bool.false_eq_true, and_self]

lemma wrapInt_of_range {z : Int} (h1 : -2 ^ 63 ≤ z) (h2 : z < 2 ^ 63) : wrapInt z = z := by
  unfold wrapInt
  omega

lemma NewGame_fields (env : Env) :
    (NewGame env).board = (fun _ => "b") ∧ (NewGame env).currentPlayer = "x" ∧
    (NewGame env).gameOver = false ∧ (NewGame env).winner = "" ∧
    (NewGame env).aiCorrect = 0 ∧ (NewGame env).aiIncorrect = 0 ∧
    (NewGame env).totalPredictions = 0 ∧ (NewGame env).selectedModel = "rule_based" := by
  unfold NewGame initializeModels checkModelAvailability
  split
  · exact ⟨rfl, rfl, rfl, rfl, rfl, rfl, rfl, rfl⟩
  · split
    · exact ⟨rfl, rfl, rfl, rfl, rfl, rfl, rfl, rfl⟩
    · exact ⟨rfl, rfl, rfl, rfl, rfl, rfl, rfl, rfl⟩

/-- One call of `CompareStates` on counters that are in step and below the largest `int`. -/
lemma CompareStates_step (g : Game) (predicted real : GameState)
    (hc : 0 ≤ g.aiCorrect) (hi : 0 ≤ g.aiIncorrect)
    (hsum : g.totalPredictions = g.aiCorrect + g.aiIncorrect)
    (hlt : g.totalPredictions + 1 < 2 ^ 63) :
    (CompareStates g predicted real).totalPredictions = g.totalPredictions + 1 ∧
    (predicted = real →
      (CompareStates g predicted real).aiCorrect = g.aiCorrect + 1 ∧
      (CompareStates g predicted real).aiIncorrect = g.aiIncorrect) ∧
    (predicted ≠ real →
      (CompareStates g predicted real).aiIncorrect = g.aiIncorrect + 1 ∧
      (CompareStates g predicted real).aiCorrect = g.aiCorrect) := by
  have ht : wrapInt (g.totalPredictions + 1) = g.totalPredictions + 1 :=
    wrapInt_of_range (by omega) hlt
  have hc2 : wrapInt (g.aiCorrect + 1) = g.aiCorrect + 1 :=
    wrapInt_of_range (by omega) (by omega)
  have hi2 : wrapInt (g.aiIncorrect + 1) = g.aiIncorrect + 1 :=
    wrapInt_of_range (by omega) (by omega)
  unfold CompareStates
  by_cases h : predicted = real
  · simp [h, ht, hc2]
  · simp [h, ht, hi2]

/-- The counters after a run of calls that stays below the largest `int`. -/
lemma compareAll_counters :
    ∀ (calls : List (GameState × GameState)) (g : Game),
      0 ≤ g.aiCorrect → 0 ≤ g.aiIncorrect →
      g.totalPredictions = g.aiCorrect + g.aiIncorrect →
      g.totalPredictions + calls.length < 2 ^ 63 →
      0 ≤ (compareAll g calls).aiCorrect ∧ 0 ≤ (compareAll g calls).aiIncorrect ∧
      (compareAll g calls).totalPredictions =
        (compareAll g calls).aiCorrect + (compareAll g calls).aiIncorrect ∧
      (compareAll g calls).totalPredictions = g.totalPredictions + calls.length
  | [], g, hc, hi, hsum, _ => by simp [compareAll, hc, hi, hsum]
  | c :: calls, g, hc, hi, hsum, hlt => by
    have hlen : ((c :: calls).length : Int) = (calls.length : Int) + 1 := by simp
    obtain ⟨ht, hyes, hno⟩ := CompareStates_step g c.1 c.2 hc hi hsum (by omega)
    have ih := compareAll_counters calls (CompareStates g c.1 c.2)
      (by by_cases h : c.1 = c.2
          · rw [(hyes h).1]; omega
          · rw [(hno h).2]; exact hc)
      (by by_cases h : c.1 = c.2
          · rw [(hyes h).2]; exact hi
          · rw [(hno h).1]; omega)
      (by by_cases h : c.1 = c.2
          · rw [ht, (hyes h).1, (hyes h).2]; omega
          · rw [ht, (hno h).1, (hno h).2]; omega)
      (by rw [ht]; omega)
    have hfold : compareAll g (c :: calls) = compareAll (CompareStates g c.1 c.2) calls := rfl
    rw [hfold]
    refine ⟨ih.1, ih.2.1, ih.2.2.1, ?_⟩
    rw [ih.2.2.2, ht]
    omega

/-- One call of `CompareStates`, in the arithmetic of `int`. -/
lemma CompareStates_wrap (g : Game) (predicted real : GameState) :
    (CompareStates g predicted real).totalPredictions = wrapInt (g.totalPredictions + 1) ∧
    (predicted = real →
      (CompareStates g predicted real).aiCorrect = wrapInt (g.aiCorrect + 1) ∧
      (CompareStates g predicted real).aiIncorrect = g.aiIncorrect) ∧
    (predicted ≠ real →
      (CompareStates g predicted real).aiIncorrect = wrapInt (g.aiIncorrect + 1) ∧
      (CompareStates g predicted real).aiCorrect = g.aiCorrect) := by
  unfold CompareStates
  by_cases h : predicted = real
  · simp [h]
  · simp [h]

/-- One call of `CompareStates` keeps `totalPredictions == aiCorrect + aiIncorrect`, the
sum being taken in the arithmetic of `int`. -/
lemma CompareStates_sum (g : Game) (predicted real : GameState)
    (hsum : g.totalPredictions = wrapInt (g.aiCorrect + g.aiIncorrect)) :
    (CompareStates g predicted real).totalPredictions =
      wrapInt ((CompareStates g predicted real).aiCorrect +
        (CompareStates g predicted real).aiIncorrect) := by
  obtain ⟨ht, hyes, hno⟩ := CompareStates_wrap g predicted real
  by_cases h : predicted = real
  · rw [ht, (hyes h).1, (hyes h).2, hsum]
    unfold wrapInt
    omega
  · rw [ht, (hno h).1, (hno h).2, hsum]
    unfold wrapInt
    omega

lemma compareAll_sum :
    ∀ (calls : List (GameState × GameState)) (g : Game),
      g.totalPredictions = wrapInt (g.aiCorrect + g.aiIncorrect) →
      (compareAll g calls).totalPredictions =
        wrapInt ((compareAll g calls).aiCorrect + (compareAll g calls).aiIncorrect)
  | [], _, hsum => hsum
  | c :: calls, g, hsum =>
    compareAll_sum calls (CompareStates g c.1 c.2) (CompareStates_sum g c.1 c.2 hsum)

/-- C4: from a game built by `NewGame`, after any run of `CompareStates` calls followed by
one more call, `totalPredictions == aiCorrect + aiIncorrect` holds, `totalPredictions` has
been incremented once, and `aiCorrect` has been incremented once exactly when
`predicted = real`, `aiIncorrect` once otherwise, the other of the two being kept; this
holds for every run, `+` being the addition of `int`.  For every run that the range of
`int` can count, that is a run shorter than `2 ^ 63` calls, the same holds with the sum
and the increments taken in the integers, and no counter has decreased.  `PlayGame`
makes at most 9 calls on a game (`reachable_counters`). -/
theorem score_bookkeeping (env : Env) (calls : List (GameState × GameState))
    (predicted real : GameState) :
    compareAll (NewGame env) (calls ++ [(predicted, real)]) =
      CompareStates (compareAll (NewGame env) calls) predicted real ∧
    (CompareStates (compareAll (NewGame env) calls) predicted real).totalPredictions =
      wrapInt ((CompareStates (compareAll (NewGame env) calls) predicted real).aiCorrect +
        (CompareStates (compareAll (NewGame env) calls) predicted real).aiIncorrect) ∧
    (CompareStates (compareAll (NewGame env) calls) predicted real).totalPredictions =
      wrapInt ((compareAll (NewGame env) calls).totalPredictions + 1) ∧
    (predicted = real →
      (CompareStates (compareAll (NewGame env) calls) predicted real).aiCorrect =
        wrapInt ((compareAll (NewGame env) calls).aiCorrect + 1) ∧
      (CompareStates (compareAll (NewGame env) calls) predicted real).aiIncorrect =
        (compareAll (NewGame env) calls).aiIncorrect) ∧
    (predicted ≠ real →
      (CompareStates (compareAll (NewGame env) calls) predicted real).aiIncorrect =
        wrapInt ((compareAll (NewGame env) calls).aiIncorrect + 1) ∧
      (CompareStates (compareAll (NewGame env) calls) predicted real).aiCorrect =
        (compareAll (NewGame env) calls).aiCorrect) ∧
    (calls.length + 1 < 2 ^ 63 →
      (CompareStates (compareAll (NewGame env) calls) predicted real).totalPredictions =
        (CompareStates (compareAll (NewGame env) calls) predicted real).aiCorrect +
        (CompareStates (compareAll (NewGame env) calls) predicted real).aiIncorrect ∧
      (compareAll (NewGame env) calls).totalPredictions ≤
        (CompareStates (compareAll (NewGame env) calls) predicted real).totalPredictions ∧
      (compareAll (NewGame env) calls).aiCorrect ≤
        (CompareStates (compareAll (NewGame env) calls) predicted real).aiCorrect ∧
      (compareAll (NewGame env) calls).aiIncorrect ≤
        (CompareStates (compareAll (NewGame env) calls) predicted real).aiIncorrect ∧
      (CompareStates (compareAll (NewGame env) calls) predicted real).totalPredictions =
        (compareAll (NewGame env) calls).totalPredictions + 1 ∧
      (predicted = real →
        (CompareStates (compareAll (NewGame env) calls) predicted real).aiCorrect =
          (compareAll (NewGame env) calls).aiCorrect + 1 ∧
        (CompareStates (compareAll (NewGame env) calls) predicted real).aiIncorrect =
          (compareAll (NewGame env) calls).aiIncorrect) ∧
      (predicted ≠ real →
        (CompareStates (compareAll (NewGame env) calls) predicted real).aiIncorrect =
          (compareAll (NewGame env) calls).aiIncorrect + 1 ∧
        (CompareStates (compareAll (NewGame env) calls) predicted real).aiCorrect =
          (compareAll (NewGame env) calls).aiCorrect)) := by
  obtain ⟨-, -, -, -, hc0, hi0, ht0, -⟩ := NewGame_fields env
  have hsum0 : (NewGame env).totalPredictions =
      wrapInt ((NewGame env).aiCorrect + (NewGame env).aiIncorrect) := by
    rw [ht0, hc0, hi0]
    rfl
  have hw := CompareStates_wrap (compareAll (NewGame env) calls) predicted real
  refine ⟨by simp [compareAll], ?_, hw.1, hw.2.1, hw.2.2, ?_⟩
  · exact CompareStates_sum _ predicted real (compareAll_sum calls (NewGame env) hsum0)
  · intro hlen
    have hlen2 : ((calls.length : Nat) : Int) + 1 < 2 ^ 63 := by exact_mod_cast hlen
    obtain ⟨hc, hi, hsum, ht⟩ := compareAll_counters calls (NewGame env)
      (by rw [hc0]) (by rw [hi0]) (by rw [ht0, hc0, hi0]; rfl) (by rw [ht0]; omega)
    rw [ht0] at ht
    obtain ⟨hst, hyes, hno⟩ := CompareStates_step (compareAll (NewGame env) calls)
      predicted real hc hi hsum (by rw [ht]; omega)
    refine ⟨?_, by omega, ?_, ?_, hst, hyes, hno⟩
    · by_cases h : predicted = real
      · rw [hst, (hyes h).1, (hyes h).2]; omega
      · rw [hst, (hno h).1, (hno h).2]; omega
    · by_cases h : predicted = real
      · rw [(hyes h).1]; omega
      · rw [(hno h).2]
    · by_cases h : predicted = real
      · rw [(hyes h).2]
      · rw [(hno h).1]; omega

/-- C4 at the run `(TemJogo, TemJogo)` followed by the call `(FimDeJogo, TemJogo)`: the
prediction is wrong, `totalPredictions` goes from 1 to 2 and `aiIncorrect` from 0 to 1. -/
theorem score_bookkeeping_witness :
    [(GameState.TemJogo, GameState.TemJogo)].length + 1 < 2 ^ 63 ∧
    GameState.FimDeJogo ≠ GameState.TemJogo ∧
    (CompareStates (compareAll (NewGame noPython) [(GameState.TemJogo, GameState.TemJogo)])
      GameState.FimDeJogo GameState.TemJogo).totalPredictions =
    (compareAll (NewGame noPython)
      [(GameState.TemJogo, GameState.TemJogo)]).totalPredictions + 1 ∧
    (CompareStates (compareAll (NewGame noPython) [(GameState.TemJogo, GameState.TemJogo)])
      GameState.FimDeJogo GameState.TemJogo).aiIncorrect =
    (compareAll (NewGame noPython)
      [(GameState.TemJogo, GameState.TemJogo)]).aiIncorrect + 1 :=
  ⟨by norm_num, by decide,
    ((score_bookkeeping noPython [(GameState.TemJogo, GameState.TemJogo)]
      GameState.FimDeJogo GameState.TemJogo).2.2.2.2.2 (by norm_num)).2.2.2.2.1,
    (((score_bookkeeping noPython [(GameState.TemJogo, GameState.TemJogo)]
      GameState.FimDeJogo GameState.TemJogo).2.2.2.2.2 (by norm_num)).2.2.2.2.2.2
        (by decide)).1⟩

lemma Board.index_eq (b : Board) (i : Int) (h : 0 ≤ i ∧ i < 9) :
    b.index i = some (b ⟨i.toNat, by omega⟩) := by
  simp [Board.index, h]

lemma Board.assign_eq (b : Board) (i : Int) (v : String) (h : 0 ≤ i ∧ i < 9) :
    b.assign i v = some (fun j : Fin 9 => if ((j : Nat) : Int) = i then v else b j) := by
  simp only [Board.assign, h, and_self, dite_true, Option.some.injEq]
  funext j
  by_cases hj : ((j : Nat) : Int) = i
  · have : j = ⟨i.toNat, by omega⟩ := by
      apply Fin.ext
      simp only
      omega
    rw [if_pos hj, this, Function.update_same]
  · have : j ≠ ⟨i.toNat, by omega⟩ := by
      intro hji
      apply hj
      rw [hji]
      simp only
      omega
    rw [if_neg hj, Function.update_noteq this]

/-- The results of `IsValidMove` and `MakeMove` at every game and position. -/
lemma MakeMove_cases (g : Game) (position : Int) :
    (IsValidMove g position = some true ∨ IsValidMove g position = some false) ∧
    (IsValidMove g position = some true ↔
      0 ≤ position ∧ position ≤ 8 ∧ g.board.index position = some "b") ∧
    (IsValidMove g position = some false → MakeMove g position = some (false, g)) ∧
    (IsValidMove g position = some true →
      MakeMove g position = some (true, { g with board := fun j : Fin 9 =>
        if ((j : Nat) : Int) = position then g.currentPlayer else g.board j })) ∧
    (∀ (r : Bool) (g2 : Game), MakeMove g position = some (r, g2) →
      ∀ j, g.board j ≠ "b" → g2.board j = g.board j) := by
  by_cases hr : 0 ≤ position ∧ position < 9
  · have hidx := Board.index_eq g.board position hr
    have hasg := Board.assign_eq g.board position g.currentPlayer hr
    have h0 : position ≥ 0 := hr.1
    have h8 : position ≤ 8 := by omega
    have hv : IsValidMove g position =
        some (decide (g.board ⟨position.toNat, by omega⟩ = "b")) := by
      simp [IsValidMove, h0, h8, hidx]
    by_cases hb : g.board ⟨position.toNat, by omega⟩ = "b"
    · have hv2 : IsValidMove g position = some true := by simp [hv, hb]
      have hm : MakeMove g position = some (true, { g with board := fun j : Fin 9 =>
          if ((j : Nat) : Int) = position then g.currentPlayer else g.board j }) := by
        simp [MakeMove, hv2, hasg]
      refine ⟨Or.inl hv2, ⟨fun _ => ⟨hr.1, h8, by simp [hidx, hb]⟩, fun _ => hv2⟩, ?_,
        fun _ => hm, ?_⟩
      · intro h; rw [hv2] at h; cases h
      · intro r g2 h j hj
        rw [hm] at h
        simp only [Option.some.injEq, Prod.mk.injEq] at h
        rw [← h.2]
        have hne : ¬ ((j : Nat) : Int) = position := by
          intro hjp
          apply hj
          have : j = ⟨position.toNat, by omega⟩ := by
            apply Fin.ext
            simp only
            omega
          rw [this]; exact hb
        simp [hne]
    · have hv2 : IsValidMove g position = some false := by simp [hv, hb]
      have hm : MakeMove g position = some (false, g) := by simp [MakeMove, hv2]
      refine ⟨Or.inr hv2, ⟨?_, ?_⟩, fun _ => hm, ?_, ?_⟩
      · intro h; rw [hv2] at h; cases h
      · rintro ⟨-, -, h⟩
        rw [hidx] at h
        exact absurd (Option.some.inj h) hb
      · intro h; rw [hv2] at h; cases h
      · intro r g2 h j _
        rw [hm] at h
        simp only [Option.some.injEq, Prod.mk.injEq] at h
        rw [← h.2]
  · have hv2 : IsValidMove g position = some false := by
      unfold IsValidMove
      by_cases h0 : position ≥ 0
      · have h8 : ¬ position ≤ 8 := by omega
        simp [h0, h8]
      · simp [h0]
    have hm : MakeMove g position = some (false, g) := by simp [MakeMove, hv2]
    refine ⟨Or.inr hv2, ⟨?_, ?_⟩, fun _ => hm, ?_, ?_⟩
    · intro h; rw [hv2] at h; cases h
    · rintro ⟨h0, h8, -⟩
      exact absurd ⟨h0, by omega⟩ hr
    · intro h; rw [hv2] at h; cases h
    · intro r g2 h j _
      rw [hm] at h
      simp only [Option.some.injEq, Prod.mk.injEq] at h
      rw [← h.2]

/-- C5: `IsValidMove` never indexes outside the board and is true exactly when
`0 ≤ position ≤ 8` and `board[position]` is `"b"`; when it is false `MakeMove` returns
false and the same game; when it is true `MakeMove` returns true and the game in which
`board[position]` is `currentPlayer` and nothing else has changed; so `MakeMove` never
changes a cell that is not empty. -/
theorem move_legality (g : Game) (position : Int) :
    (IsValidMove g position = some true ∨ IsValidMove g position = some false) ∧
    (IsValidMove g position = some true ↔
      0 ≤ position ∧ position ≤ 8 ∧ g.board.index position = some "b") ∧
    (IsValidMove g position = some false → MakeMove g position = some (false, g)) ∧
    (IsValidMove g position = some true →
      MakeMove g position = some (true, { g with board := fun j : Fin 9 =>
        if ((j : Nat) : Int) = position then g.currentPlayer else g.board j })) ∧
    (∀ (r : Bool) (g2 : Game), MakeMove g position = some (r, g2) →
      ∀ j, g.board j ≠ "b" → g2.board j = g.board j) :=
  MakeMove_cases g position

/-- C5 at the board `x x _ / _ o _ / _ _ _` with `"x"` to play: position 0 is occupied
and refused, position 9 is out of range and refused, position 2 is empty and taken. -/
theorem move_legality_witness :
    MakeMove (gameOn pairBoard) 0 = some (false, gameOn pairBoard) ∧
    MakeMove (gameOn pairBoard) 9 = some (false, gameOn pairBoard) ∧
    MakeMove (gameOn pairBoard) 2 =
      some (true,
        { gameOn pairBoard with
          board := fun j : Fin 9 =>
            if ((j : Nat) : Int) = 2 then (gameOn pairBoard).currentPlayer
            else (gameOn pairBoard).board j }) :=
  ⟨(move_legality (gameOn pairBoard) 0).2.2.1 (by decide),
    (move_legality (gameOn pairBoard) 9).2.2.1 (by decide),
    (move_legality (gameOn pairBoard) 2).2.2.2.1 (by decide)⟩

lemma foldl_countMarks (l : List String) (acc : Nat × Nat × Nat) :
    l.foldl
      (fun (acc : Nat × Nat × Nat) cell =>
        if cell = "x" then (acc.1 + 1, acc.2.1, acc.2.2)
        else if cell = "o" then (acc.1, acc.2.1 + 1, acc.2.2)
        else if cell = "b" then (acc.1, acc.2.1, acc.2.2 + 1)
        else acc)
      acc =
    (acc.1 + l.count "x", acc.2.1 + l.count "o", acc.2.2 + l.count "b") := by
  induction l generalizing acc with
  | nil => simp
  | cons c l ih =>
    rw [List.foldl_cons, ih]
    by_cases hx : c = "x"
    · subst hx
      simp [List.count_cons]
      omega
    · by_cases ho : c = "o"
      · subst ho
        simp [List.count_cons]
        omega
      · by_cases hb : c = "b"
        · subst hb
          simp [List.count_cons]
          omega
        · simp [List.count_cons, hx, ho, hb]

lemma countMarks_eq (b : Board) :
    countMarks b = (cellCount b "x", cellCount b "o", cellCount b "b") := by
  simp [countMarks, cellCount, foldl_countMarks]

lemma count_marks_total (l : List String)
    (h : ∀ c ∈ l, c = "x" ∨ c = "o" ∨ c = "b") :
    l.count "x" + l.count "o" + l.count "b" = l.length := by
  induction l with
  | nil => simp
  | cons c l ih =>
    have ih2 := ih (fun d hd => h d (List.mem_cons_of_mem _ hd))
    rcases h c (List.mem_cons_self _ _) with hc | hc | hc <;> subst hc <;>
      simp [List.count_cons] <;> omega

lemma cellCount_total (b : Board) (hwf : WellFormed b) :
    cellCount b "x" + cellCount b "o" + cellCount b "b" = 9 := by
  have h := count_marks_total b.cells (by
    intro c hc
    rw [Board.cells, List.mem_ofFn] at hc
    obtain ⟨i, rfl⟩ := hc
    exact hwf i)
  simpa [cellCount, Board.cells] using h

lemma predictWithRules_eq (g : Game) :
    predictWithRules g =
      (if cellCount g.board "b" ≤ 2 then GameState.FimDeJogo
        else if cellCount g.board "b" ≤ 4 ∧
            (cellCount g.board "x" ≥ 2 ∨ cellCount g.board "o" ≥ 2)
          then GameState.PossivelFimDeJogo
        else GameState.TemJogo, g) := by
  simp only [predictWithRules, countMarks_eq]
  split_ifs <;> rfl

/-- C6: with the numbers of cells equal to `"b"`, `"x"` and `"o"`, `predictWithRules`
returns `FimDeJogo` when at most 2 cells are empty, otherwise `PossivelFimDeJogo` when at
most 4 are empty and one of the marks occurs at least twice, otherwise `TemJogo`; it
returns the game as it was; and `PredictGameStateWithAI` returns the same when
`selectedModel` is `"rule_based"`. -/
theorem rule_based_prediction (env : Env) (g : Game) :
    predictWithRules g =
      (if cellCount g.board "b" ≤ 2 then GameState.FimDeJogo
        else if cellCount g.board "b" ≤ 4 ∧
            (cellCount g.board "x" ≥ 2 ∨ cellCount g.board "o" ≥ 2)
          then GameState.PossivelFimDeJogo
        else GameState.TemJogo, g) ∧
    (g.selectedModel = "rule_based" → PredictGameStateWithAI env g = predictWithRules g) :=
  ⟨predictWithRules_eq g, fun h => by simp [PredictGameStateWithAI, h]⟩

/-- C6 at a fresh game on the board `x o x / o x _ / _ _ _`, whose model is
`"rule_based"`: four cells are empty and `"x"` occurs three times. -/
theorem rule_based_prediction_witness :
    (gameOn fourEmptyBoard).selectedModel = "rule_based" ∧
    PredictGameStateWithAI failingModel (gameOn fourEmptyBoard) =
      (GameState.PossivelFimDeJogo, gameOn fourEmptyBoard) :=
  ⟨by decide, by
    rw [(rule_based_prediction failingModel (gameOn fourEmptyBoard)).2 (by decide),
      (rule_based_prediction failingModel (gameOn fourEmptyBoard)).1]
    have hb : cellCount (gameOn fourEmptyBoard).board "b" = 4 := by decide
    have hx : cellCount (gameOn fourEmptyBoard).board "x" = 3 := by decide
    simp [hb, hx]⟩

/-- C10: on a board over the three tokens the result of `predictWithRules` is decided by
the number of empty cells alone: `FimDeJogo` for 0 to 2, `PossivelFimDeJogo` for 3 or 4,
`TemJogo` for 5 to 9. -/
theorem rules_depend_on_empty_count (g : Game) (hwf : WellFormed g.board) :
    cellCount g.board "b" ≤ 9 ∧
    (predictWithRules g).1 =
      (if cellCount g.board "b" ≤ 2 then GameState.FimDeJogo
        else if cellCount g.board "b" ≤ 4 then GameState.PossivelFimDeJogo
        else GameState.TemJogo) := by
  have htot := cellCount_total g.board hwf
  refine ⟨by omega, ?_⟩
  rw [predictWithRules_eq]
  by_cases h2 : cellCount g.board "b" ≤ 2
  · simp [h2]
  · by_cases h4 : cellCount g.board "b" ≤ 4
    · have hm : cellCount g.board "x" ≥ 2 ∨ cellCount g.board "o" ≥ 2 := by omega
      simp [h2, h4, hm]
    · simp [h2, h4]

/-- C10 at the board `x o x / o x _ / _ _ _`, with four empty cells. -/
theorem rules_depend_on_empty_count_witness :
    WellFormed (gameOn fourEmptyBoard).board ∧
    (predictWithRules (gameOn fourEmptyBoard)).1 =
      (if cellCount (gameOn fourEmptyBoard).board "b" ≤ 2 then GameState.FimDeJogo
        else if cellCount (gameOn fourEmptyBoard).board "b" ≤ 4
          then GameState.PossivelFimDeJogo
        else GameState.TemJogo) :=
  ⟨by decide, (rules_depend_on_empty_count (gameOn fourEmptyBoard) (by decide)).2⟩

/-- C7: when the process fails, or its output does not parse, or the parsed answer has a
non-empty `Error`, `predictWithTrainedModel` returns what `predictWithRules` returns and
leaves the game as it was; a later call on that game, in an environment where the answer
is well-formed, returns the state named by the answer. -/
theorem fallback_safety (env : Env) (g : Game)
    (hfail :
      env.output (pythonCmd env)
        ["model_predictor.py", "predict", g.selectedModel, boardString g.board] = none ∨
      (∃ out, env.output (pythonCmd env)
          ["model_predictor.py", "predict", g.selectedModel, boardString g.board] = some out ∧
        env.unmarshalPrediction out = none) ∨
      (∃ out result, env.output (pythonCmd env)
          ["model_predictor.py", "predict", g.selectedModel, boardString g.board] = some out ∧
        env.unmarshalPrediction out = some result ∧ result.Error ≠ "")) :
    predictWithTrainedModel env g = predictWithRules g ∧
    (predictWithTrainedModel env g).2 = g ∧
    (∀ (env2 : Env) (out : String) (result : PredictionResult),
      env2.output (pythonCmd env2)
        ["model_predictor.py", "predict", g.selectedModel, boardString g.board] = some out →
      env2.unmarshalPrediction out = some result → result.Error = "" →
      predictWithTrainedModel env2 (predictWithTrainedModel env g).2 =
        (stateOfInt result.PredictionInt, g)) := by
  have h1 : predictWithTrainedModel env g = predictWithRules g := by
    unfold predictWithTrainedModel
    rcases hfail with h | ⟨out, h, hu⟩ | ⟨out, result, h, hu, herr⟩
    · simp [h]
    · simp [h, hu]
    · simp [h, hu, herr]
  have h2 : (predictWithRules g).2 = g := by rw [predictWithRules_eq]
  refine ⟨h1, by rw [h1, h2], ?_⟩
  intro env2 out result ho hu herr
  rw [h1, h2]
  simp [predictWithTrainedModel, ho, hu, herr]

/-- C7 at a game with the model `"mlp"` selected, when the answer of the process carries
an error field. -/
theorem fallback_safety_witness :
    (∃ out result, failingModel.output (pythonCmd failingModel)
        ["model_predictor.py", "predict", mlpGame.selectedModel, boardString mlpGame.board] =
          some out ∧
      failingModel.unmarshalPrediction out = some result ∧ result.Error ≠ "") ∧
    predictWithTrainedModel failingModel mlpGame = predictWithRules mlpGame :=
  ⟨⟨_, _, rfl, rfl, by decide⟩,
    (fallback_safety failingModel mlpGame (Or.inr (Or.inr ⟨_, _, rfl, rfl, by decide⟩))).1⟩

lemma MakeMove_result (g : Game) (position : Int) (r : Bool) (g1 : Game)
    (h : MakeMove g position = some (r, g1)) :
    g1 = g ∨
    g1 = { g with board := fun j : Fin 9 =>
      if ((j : Nat) : Int) = position then g.currentPlayer else g.board j } := by
  obtain ⟨hv, -, hf, ht, -⟩ := MakeMove_cases g position
  rcases hv with hv | hv
  · rw [ht hv] at h
    simp only [Option.some.injEq, Prod.mk.injEq] at h
    exact Or.inr h.2.symm
  · rw [hf hv] at h
    simp only [Option.some.injEq, Prod.mk.injEq] at h
    exact Or.inl h.2.symm

/-- A triple completed by a move on a board without completed triples holds the mark
just placed. -/
lemma completed_after_move (b : Board) (position : Int) (cp : String)
    (hno : ∀ q ∈ winPatterns, ¬ Completed b q)
    (q : Fin 9 × Fin 9 × Fin 9) (hq : q ∈ winPatterns)
    (hc : Completed (fun j : Fin 9 => if ((j : Nat) : Int) = position then cp else b j) q) :
    (fun j : Fin 9 => if ((j : Nat) : Int) = position then cp else b j) q.1 = cp := by
  obtain ⟨hne, h12, h23⟩ := hc
  simp only at hne h12 h23 ⊢
  by_cases h1 : ((q.1 : Nat) : Int) = position
  · simp [h1]
  · by_cases h2 : ((q.2.1 : Nat) : Int) = position
    · rw [h12]; simp [h2]
    · by_cases h3 : ((q.2.2 : Nat) : Int) = position
      · rw [h12, h23]; simp [h3]
      · exfalso
        simp only [h1, h2, h3, if_false] at hne h12 h23
        exact hno q hq ⟨hne, h12, h23⟩

lemma predictWithTrainedModel_snd (env : Env) (g : Game) :
    (predictWithTrainedModel env g).2 = g := by
  have hr : (predictWithRules g).2 = g := by rw [predictWithRules_eq]
  unfold predictWithTrainedModel
  split
  · exact hr
  · split
    · exact hr
    · split_ifs
      · exact hr
      · rfl

lemma PredictGameStateWithAI_snd (env : Env) (g : Game) :
    (PredictGameStateWithAI env g).2 = g := by
  unfold PredictGameStateWithAI
  split_ifs
  · rw [predictWithRules_eq]
  · exact predictWithTrainedModel_snd env g

lemma CompareStates_board (g : Game) (predicted real : GameState) :
    (CompareStates g predicted real).board = g.board ∧
    (CompareStates g predicted real).gameOver = g.gameOver := by
  unfold CompareStates
  split_ifs <;> exact ⟨rfl, rfl⟩

lemma SwitchPlayer_board (g : Game) :
    (SwitchPlayer g).board = g.board ∧ (SwitchPlayer g).gameOver = g.gameOver := by
  unfold SwitchPlayer
  split_ifs <;> exact ⟨rfl, rfl⟩

lemma GetRealGameState_board (g : Game) :
    (GetRealGameState g).2.board = g.board ∧
    ((GetRealGameState g).2.gameOver = false → g.gameOver = false ∧
      ∀ q ∈ winPatterns, ¬ Completed g.board q) := by
  unfold GetRealGameState
  cases hw : findWinner g.board winPatterns with
  | some w => simp
  | none =>
    have hno := findWinner_none.mp hw
    by_cases he : emptySpaces g.board = 0
    · simp [he]
    · simp only [he, if_false]
      split_ifs
      · exact ⟨rfl, fun h => ⟨h, hno⟩⟩
      · exact ⟨rfl, fun h => ⟨h, hno⟩⟩

lemma analyseMove_board (env : Env) (g1 : Game) :
    (analyseMove env g1).board = g1.board ∧
    ((analyseMove env g1).gameOver = false → ∀ q ∈ winPatterns, ¬ Completed g1.board q) := by
  have hreal := GetRealGameState_board g1
  have hpred := PredictGameStateWithAI_snd env (GetRealGameState g1).2
  have hcmp := CompareStates_board (PredictGameStateWithAI env (GetRealGameState g1).2).2
    (PredictGameStateWithAI env (GetRealGameState g1).2).1 (GetRealGameState g1).1
  unfold analyseMove
  simp only
  split_ifs with hover
  · refine ⟨by rw [hcmp.1, hpred, hreal.1], fun h => ?_⟩
    rw [hover] at h
    cases h
  · have hsw := SwitchPlayer_board (CompareStates
      (PredictGameStateWithAI env (GetRealGameState g1).2).2
      (PredictGameStateWithAI env (GetRealGameState g1).2).1 (GetRealGameState g1).1)
    refine ⟨by rw [hsw.1, hcmp.1, hpred, hreal.1], fun _ => ?_⟩
    have hfalse : (GetRealGameState g1).2.gameOver = false := by
      rw [← hpred, ← hcmp.2]
      exact Bool.eq_false_iff.mpr hover
    exact (hreal.2 hfalse).2

lemma playMove_result (intn : Nat → Nat) (g g1 : Game) (position : Int)
    (h : playMove intn g position = some g1) :
    g.gameOver = false ∧
    (g1 = g ∨ ∃ pos : Int, g1 = { g with board := fun j : Fin 9 =>
      if ((j : Nat) : Int) = pos then g.currentPlayer else g.board j }) := by
  unfold playMove at h
  split_ifs at h with hover hx
  · refine ⟨Bool.eq_false_iff.mpr hover, ?_⟩
    cases hmv : MakeMove g position with
    | none => rw [hmv] at h; cases h
    | some res =>
      obtain ⟨r, g2⟩ := res
      rw [hmv] at h
      cases r with
      | false => cases h
      | true =>
        simp only [Option.some.injEq] at h
        subst h
        rcases MakeMove_result g position true g2 hmv with h2 | h2
        · exact Or.inl h2
        · exact Or.inr ⟨position, h2⟩
  · refine ⟨Bool.eq_false_iff.mpr hover, ?_⟩
    cases hcm : GetComputerMove g intn with
    | none => rw [hcm] at h; cases h
    | some computerMove =>
      rw [hcm] at h
      simp only at h
      split_ifs at h with hbreak
      cases hmv : MakeMove g computerMove with
      | none => rw [hmv] at h; cases h
      | some res =>
        obtain ⟨r, g2⟩ := res
        rw [hmv] at h
        simp only [Option.map_some', Option.some.injEq] at h
        subst h
        rcases MakeMove_result g _ r g2 hmv with h2 | h2
        · exact Or.inl h2
        · exact Or.inr ⟨_, h2⟩

/-- The invariant of the loop of `PlayGame`: while the game is not over no winning triple
is complete, and at any time all complete winning triples hold the same mark. -/
lemma reachable_invariant (g : Game) (h : Reachable g) :
    (g.gameOver = false → ∀ q ∈ winPatterns, ¬ Completed g.board q) ∧
    (∀ p ∈ winPatterns, ∀ q ∈ winPatterns,
      Completed g.board p → Completed g.board q → g.board p.1 = g.board q.1) := by
  induction h with
  | start env =>
    have hb := (NewGame_fields env).1
    have hno : ∀ q ∈ winPatterns, ¬ Completed (NewGame env).board q := by
      intro q _ hc
      apply hc.1
      rw [hb]
    exact ⟨fun _ => hno, fun p hp _ _ hc _ => absurd hc (hno p hp)⟩
  | select g model _ ih => exact ih
  | step env intn g g2 position _ hstep ih =>
    unfold playIteration at hstep
    cases hmv : playMove intn g position with
    | none => rw [hmv] at hstep; cases hstep
    | some g1 =>
      rw [hmv] at hstep
      simp only [Option.map_some', Option.some.injEq] at hstep
      subst hstep
      obtain ⟨hover, hg1⟩ := playMove_result intn g g1 position hmv
      obtain ⟨hboard, hopen⟩ := analyseMove_board env g1
      have hno := ih.1 hover
      refine ⟨fun h => by rw [hboard]; exact hopen h, ?_⟩
      rw [hboard]
      rcases hg1 with rfl | ⟨pos, rfl⟩
      · exact ih.2
      · intro p hp q hq hcp hcq
        have h1 := completed_after_move g.board pos g.currentPlayer hno p hp hcp
        have h2 := completed_after_move g.board pos g.currentPlayer hno q hq hcq
        exact h1.trans h2.symm

/-- C9: in every game reachable from `NewGame` by iterations of the loop of `PlayGame`
there are no two winning triples of which one is filled by `"x"` and the other by `"o"`;
all complete winning triples hold one and the same mark, so the order in which
`GetRealGameState` visits them does not affect the winner. -/
theorem conflicting_wins_unreachable (g : Game) (h : Reachable g) :
    (¬ ∃ p ∈ winPatterns, ∃ q ∈ winPatterns,
      FilledBy g.board "x" p ∧ FilledBy g.board "o" q) ∧
    (∀ p ∈ winPatterns, ∀ q ∈ winPatterns,
      Completed g.board p → Completed g.board q → g.board p.1 = g.board q.1) := by
  have hinv := reachable_invariant g h
  refine ⟨?_, hinv.2⟩
  rintro ⟨p, hp, q, hq, hx, ho⟩
  have hcp : Completed g.board p :=
    ⟨by rw [hx.1]; decide, by rw [hx.1, hx.2.1], by rw [hx.2.1, hx.2.2]⟩
  have hcq : Completed g.board q :=
    ⟨by rw [ho.1]; decide, by rw [ho.1, ho.2.1], by rw [ho.2.1, ho.2.2]⟩
  have heq := hinv.2 p hp q hq hcp hcq
  rw [hx.1, ho.1] at heq
  exact absurd heq (by decide)

lemma filledCells_le (b : Board) : filledCells b ≤ 9 := by
  have h := Finset.card_filter_le (Finset.univ : Finset (Fin 9)) (fun j => b j ≠ "b")
  simpa [filledCells] using h

lemma filledCells_start : filledCells (fun _ => "b") = 0 := by
  simp [filledCells]

/-- Writing a mark into an empty cell fills one more cell. -/
lemma filledCells_move (b : Board) (i : Fin 9) (position : Int) (v : String)
    (hi : ((i : Nat) : Int) = position) (hb : b i = "b") (hv : v ≠ "b") :
    filledCells (fun j : Fin 9 => if ((j : Nat) : Int) = position then v else b j) =
      filledCells b + 1 := by
  have hset : (Finset.univ.filter
      (fun j : Fin 9 => (if ((j : Nat) : Int) = position then v else b j) ≠ "b")) =
      insert i (Finset.univ.filter (fun j : Fin 9 => b j ≠ "b")) := by
    ext j
    simp only [Finset.mem_filter, Finset.mem_univ, true_and, Finset.mem_insert]
    by_cases hj : ((j : Nat) : Int) = position
    · have hji : j = i := by
        apply Fin.ext
        omega
      subst hji
      simp [hj, hv]
    · have hji : j ≠ i := by
        intro h
        apply hj
        rw [h]
        exact hi
      simp [hj, hji]
  have hnot : i ∉ Finset.univ.filter (fun j : Fin 9 => b j ≠ "b") := by
    simp [hb]
  unfold filledCells
  rw [hset, Finset.card_insert_of_not_mem hnot]

lemma IsValidMove_cell (g : Game) (position : Int) (h : IsValidMove g position = some true) :
    ∃ i : Fin 9, ((i : Nat) : Int) = position ∧ g.board i = "b" := by
  obtain ⟨h0, h8, hidx⟩ := (MakeMove_cases g position).2.1.mp h
  have hr : 0 ≤ position ∧ position < 9 := ⟨h0, by omega⟩
  rw [Board.index_eq g.board position hr] at hidx
  exact ⟨⟨position.toNat, by omega⟩, by simp only; omega, Option.some.inj hidx⟩

lemma mem_validMoves (b : Board) (x : Int) :
    ∀ (l : List (Fin 9)) (acc : List Int),
      x ∈ l.foldl (fun acc i => if b i = "b" then acc ++ [((i : Nat) : Int)] else acc) acc →
      x ∈ acc ∨ ∃ i : Fin 9, b i = "b" ∧ x = ((i : Nat) : Int)
  | [], _, h => Or.inl h
  | i :: l, acc, h => by
    rw [List.foldl_cons] at h
    rcases mem_validMoves b x l _ h with hacc | hex
    · by_cases hb : b i = "b"
      · rw [if_pos hb, List.mem_append, List.mem_singleton] at hacc
        rcases hacc with hacc | hx
        · exact Or.inl hacc
        · exact Or.inr ⟨i, hb, hx⟩
      · rw [if_neg hb] at hacc
        exact Or.inl hacc
    · exact Or.inr hex

/-- A move produced by `GetComputerMove`, when it is not `-1`, is a legal move. -/
lemma GetComputerMove_valid (g : Game) (intn : Nat → Nat) (computerMove : Int)
    (h : GetComputerMove g intn = some computerMove) (hne : computerMove ≠ -1) :
    IsValidMove g computerMove = some true := by
  unfold GetComputerMove at h
  simp only at h
  split_ifs at h with hlen
  · exact absurd (Option.some.inj h).symm hne
  · rcases mem_validMoves g.board computerMove _ _ (List.getElem?_mem h) with hnil | ⟨i, hb, hx⟩
    · cases hnil
    · refine (MakeMove_cases g computerMove).2.1.mpr ⟨by omega, by omega, ?_⟩
      have hr : 0 ≤ computerMove ∧ computerMove < 9 := ⟨by omega, by omega⟩
      rw [Board.index_eq g.board computerMove hr]
      have hfin : (⟨computerMove.toNat, by omega⟩ : Fin 9) = i := by
        apply Fin.ext
        simp only
        omega
      rw [hfin, hb]

/-- Every iteration that reaches the analysis has written the mark of the current player
into an empty cell. -/
lemma playMove_legal (intn : Nat → Nat) (g g1 : Game) (position : Int)
    (h : playMove intn g position = some g1) :
    ∃ (i : Fin 9) (pos : Int), ((i : Nat) : Int) = pos ∧ g.board i = "b" ∧
      g1 = { g with board := fun j : Fin 9 =>
        if ((j : Nat) : Int) = pos then g.currentPlayer else g.board j } := by
  unfold playMove at h
  split_ifs at h with hover hx
  · obtain ⟨hv, -, hf, ht, -⟩ := MakeMove_cases g position
    rcases hv with hv | hv
    · obtain ⟨i, hi, hb⟩ := IsValidMove_cell g position hv
      rw [ht hv] at h
      exact ⟨i, position, hi, hb, (Option.some.inj h).symm⟩
    · rw [hf hv] at h
      cases h
  · cases hcm : GetComputerMove g intn with
    | none => rw [hcm] at h; cases h
    | some computerMove =>
      rw [hcm] at h
      simp only at h
      split_ifs at h with hbreak
      have hv := GetComputerMove_valid g intn computerMove hcm hbreak
      obtain ⟨i, hi, hb⟩ := IsValidMove_cell g computerMove hv
      rw [(MakeMove_cases g computerMove).2.2.2.1 hv] at h
      exact ⟨i, computerMove, hi, hb, (Option.some.inj h).symm⟩

lemma GetRealGameState_counters (g : Game) :
    (GetRealGameState g).2.currentPlayer = g.currentPlayer ∧
    (GetRealGameState g).2.aiCorrect = g.aiCorrect ∧
    (GetRealGameState g).2.aiIncorrect = g.aiIncorrect ∧
    (GetRealGameState g).2.totalPredictions = g.totalPredictions := by
  unfold GetRealGameState
  split
  · exact ⟨rfl, rfl, rfl, rfl⟩
  · split_ifs <;> exact ⟨rfl, rfl, rfl, rfl⟩

lemma CompareStates_player (g : Game) (predicted real : GameState) :
    (CompareStates g predicted real).currentPlayer = g.currentPlayer := by
  unfold CompareStates
  split_ifs <;> rfl

lemma SwitchPlayer_counters (g : Game) :
    ((SwitchPlayer g).currentPlayer = "x" ∨ (SwitchPlayer g).currentPlayer = "o") ∧
    (SwitchPlayer g).aiCorrect = g.aiCorrect ∧
    (SwitchPlayer g).aiIncorrect = g.aiIncorrect ∧
    (SwitchPlayer g).totalPredictions = g.totalPredictions := by
  unfold SwitchPlayer
  split_ifs
  · exact ⟨Or.inr rfl, rfl, rfl, rfl⟩
  · exact ⟨Or.inl rfl, rfl, rfl, rfl⟩

/-- The counters and the player after the analysis of a move, when the counters before
it are in step and below the largest `int`. -/
lemma analyseMove_counters (env : Env) (g1 : Game)
    (hp : g1.currentPlayer = "x" ∨ g1.currentPlayer = "o")
    (hc : 0 ≤ g1.aiCorrect) (hi : 0 ≤ g1.aiIncorrect)
    (hsum : g1.totalPredictions = g1.aiCorrect + g1.aiIncorrect)
    (hlt : g1.totalPredictions + 1 < 2 ^ 63) :
    ((analyseMove env g1).currentPlayer = "x" ∨ (analyseMove env g1).currentPlayer = "o") ∧
    0 ≤ (analyseMove env g1).aiCorrect ∧ 0 ≤ (analyseMove env g1).aiIncorrect ∧
    (analyseMove env g1).totalPredictions =
      (analyseMove env g1).aiCorrect + (analyseMove env g1).aiIncorrect ∧
    (analyseMove env g1).totalPredictions = g1.totalPredictions + 1 := by
  obtain ⟨hrp, hrc, hri, hrt⟩ := GetRealGameState_counters g1
  have hpred := PredictGameStateWithAI_snd env (GetRealGameState g1).2
  obtain ⟨hst, hyes, hno⟩ := CompareStates_step (GetRealGameState g1).2
    (PredictGameStateWithAI env (GetRealGameState g1).2).1 (GetRealGameState g1).1
    (by rw [hrc]; exact hc) (by rw [hri]; exact hi) (by rw [hrt, hrc, hri]; exact hsum)
    (by rw [hrt]; exact hlt)
  have hcp := CompareStates_player (GetRealGameState g1).2
    (PredictGameStateWithAI env (GetRealGameState g1).2).1 (GetRealGameState g1).1
  rw [hrt] at hst
  rw [hrc, hri] at hyes hno
  rw [hrp] at hcp
  have hcmp : 0 ≤ (CompareStates (GetRealGameState g1).2
        (PredictGameStateWithAI env (GetRealGameState g1).2).1
        (GetRealGameState g1).1).aiCorrect ∧
      0 ≤ (CompareStates (GetRealGameState g1).2
        (PredictGameStateWithAI env (GetRealGameState g1).2).1
        (GetRealGameState g1).1).aiIncorrect ∧
      (CompareStates (GetRealGameState g1).2
        (PredictGameStateWithAI env (GetRealGameState g1).2).1
        (GetRealGameState g1).1).totalPredictions =
      (CompareStates (GetRealGameState g1).2
        (PredictGameStateWithAI env (GetRealGameState g1).2).1
        (GetRealGameState g1).1).aiCorrect +
      (CompareStates (GetRealGameState g1).2
        (PredictGameStateWithAI env (GetRealGameState g1).2).1
        (GetRealGameState g1).1).aiIncorrect := by
    by_cases h : (PredictGameStateWithAI env (GetRealGameState g1).2).1 =
        (GetRealGameState g1).1
    · rw [hst, (hyes h).1, (hyes h).2]
      exact ⟨by omega, hi, by omega⟩
    · rw [hst, (hno h).1, (hno h).2]
      exact ⟨hc, by omega, by omega⟩
  unfold analyseMove
  simp only [hpred]
  split_ifs
  · exact ⟨by rw [hcp]; exact hp, hcmp.1, hcmp.2.1, hcmp.2.2, hst⟩
  · obtain ⟨hsp, hsc, hsi, hsT⟩ := SwitchPlayer_counters (CompareStates (GetRealGameState g1).2
      (PredictGameStateWithAI env (GetRealGameState g1).2).1 (GetRealGameState g1).1)
    rw [hsc, hsi, hsT]
    exact ⟨hsp, hcmp.1, hcmp.2.1, hcmp.2.2, hst⟩

/-- In every game that `PlayGame` can hold, `totalPredictions` is the number of filled
cells, hence at most 9, the counters are not negative, and
`totalPredictions = aiCorrect + aiIncorrect` in the integers. -/
lemma reachable_counters (g : Game) (h : Reachable g) :
    (g.currentPlayer = "x" ∨ g.currentPlayer = "o") ∧
    0 ≤ g.aiCorrect ∧ 0 ≤ g.aiIncorrect ∧
    g.totalPredictions = g.aiCorrect + g.aiIncorrect ∧
    g.totalPredictions = (filledCells g.board : Int) ∧
    g.totalPredictions ≤ 9 := by
  induction h with
  | start env =>
    obtain ⟨hb, hp, -, -, hc0, hi0, ht0, -⟩ := NewGame_fields env
    rw [hb, hp, hc0, hi0, ht0, filledCells_start]
    exact ⟨Or.inl rfl, le_refl _, le_refl _, rfl, rfl, by norm_num⟩
  | select g model _ ih => exact ih
  | step env intn g g2 position _ hstep ih =>
    unfold playIteration at hstep
    cases hmv : playMove intn g position with
    | none => rw [hmv] at hstep; cases hstep
    | some g1 =>
      rw [hmv] at hstep
      simp only [Option.map_some', Option.some.injEq] at hstep
      subst hstep
      obtain ⟨hp, hc, hi, hsum, hfill, h9⟩ := ih
      obtain ⟨i, pos, hipos, hb, rfl⟩ := playMove_legal intn g g1 position hmv
      have hcp : g.currentPlayer ≠ "b" := by
        rcases hp with hp | hp <;> rw [hp] <;> decide
      have hmove := filledCells_move g.board i pos g.currentPlayer hipos hb hcp
      have hle := filledCells_le (fun j : Fin 9 =>
        if ((j : Nat) : Int) = pos then g.currentPlayer else g.board j)
      obtain ⟨hp2, hc2, hi2, hsum2, ht2⟩ := analyseMove_counters env
        { g with board := fun j : Fin 9 =>
          if ((j : Nat) : Int) = pos then g.currentPlayer else g.board j }
        hp hc hi hsum (by simp only; omega)
      obtain ⟨hboard, -⟩ := analyseMove_board env
        { g with board := fun j : Fin 9 =>
          if ((j : Nat) : Int) = pos then g.currentPlayer else g.board j }
      simp only at ht2 hboard
      refine ⟨hp2, hc2, hi2, hsum2, ?_, ?_⟩
      · rw [ht2, hboard, hmove, hfill]
        push_cast
        rfl
      · rw [ht2, hfill]
        have : (filledCells g.board : Int) + 1 ≤ 9 := by
          have h2 : filledCells g.board + 1 ≤ 9 := by rw [← hmove]; exact hle
          exact_mod_cast h2
        exact this

lemma afterCentre_step :
    playIteration noPython (fun _ => 0) (NewGame noPython) 4 = some afterCentre := rfl

lemma afterReply_step :
    playIteration noPython (fun _ => 0) afterCentre 0 = some afterReply := rfl

lemma afterReply_board :
    afterReply.board = !["o", "b", "b", "b", "x", "b", "b", "b", "b"] ∧
    afterReply.currentPlayer = "x" ∧ afterReply.totalPredictions = 2 := by decide

/-- C9 at the game reached when `"x"` opens in the centre and the computer answers in
cell 0. -/
theorem conflicting_wins_unreachable_witness :
    Reachable afterReply ∧
    ¬ ∃ p ∈ winPatterns, ∃ q ∈ winPatterns,
      FilledBy afterReply.board "x" p ∧ FilledBy afterReply.board "o" q :=
  ⟨Reachable.step noPython (fun _ => 0) afterCentre afterReply 0
      (Reachable.step noPython (fun _ => 0) (NewGame noPython) afterCentre 4
        (Reachable.start noPython) afterCentre_step) afterReply_step,
    (conflicting_wins_unreachable afterReply
      (Reachable.step noPython (fun _ => 0) afterCentre afterReply 0
        (Reachable.step noPython (fun _ => 0) (NewGame noPython) afterCentre 4
          (Reachable.start noPython) afterCentre_step) afterReply_step)).1⟩

end JogoDaVelha
